import Mathlib

set_option maxHeartbeats 1000000
set_option maxRecDepth 4000

/- Formal model of the NixOS integration-test driver
   (nixos/lib/test-driver/test-driver.py).

   Conventions of the embedding: each byte stream is modelled as the list of
   chunks that successive recv calls return; machine integers are Nat; a
   Python function that can raise is modelled with Except, and a loop that
   can block forever with Option (none = never returns).  Strings from the
   guest are modelled as List Char where chunk arithmetic matters and as
   String elsewhere. -/

/-- The CHAR TO KEY table of test-driver.py (lines 21 to 82), reproduced
entry for entry in source order. -/
def CHAR_TO_KEY : List (String × String) := [
  ("A", "shift-a"),
  ("N", "shift-n"),
  ("-", "0x0C"),
  ("_", "shift-0x0C"),
  ("B", "shift-b"),
  ("O", "shift-o"),
  ("=", "0x0D"),
  ("+", "shift-0x0D"),
  ("C", "shift-c"),
  ("P", "shift-p"),
  ("[", "0x1A"),
  ("\x7b", "shift-0x1A"),
  ("D", "shift-d"),
  ("Q", "shift-q"),
  ("]", "0x1B"),
  ("\x7d", "shift-0x1B"),
  ("E", "shift-e"),
  ("R", "shift-r"),
  (";", "0x27"),
  (":", "shift-0x27"),
  ("F", "shift-f"),
  ("S", "shift-s"),
  ("\x27", "0x28"),
  ("\"", "shift-0x28"),
  ("G", "shift-g"),
  ("T", "shift-t"),
  ("`", "0x29"),
  ("~", "shift-0x29"),
  ("H", "shift-h"),
  ("U", "shift-u"),
  ("\\", "0x2B"),
  ("|", "shift-0x2B"),
  ("I", "shift-i"),
  ("V", "shift-v"),
  (",", "0x33"),
  ("<", "shift-0x33"),
  ("J", "shift-j"),
  ("W", "shift-w"),
  (".", "0x34"),
  (">", "shift-0x34"),
  ("K", "shift-k"),
  ("X", "shift-x"),
  ("/", "0x35"),
  ("?", "shift-0x35"),
  ("L", "shift-l"),
  ("Y", "shift-y"),
  (" ", "spc"),
  ("M", "shift-m"),
  ("Z", "shift-z"),
  ("\n", "ret"),
  ("!", "shift-0x02"),
  ("@", "shift-0x03"),
  ("#", "shift-0x04"),
  ("$", "shift-0x05"),
  ("%", "shift-0x06"),
  ("^", "shift-0x07"),
  ("&", "shift-0x08"),
  ("*", "shift-0x09"),
  ("(", "shift-0x0A"),
  (")", "shift-0x0B")]

/-- Key translation in Machine.send_key (line 570): CHAR_TO_KEY.get(key, key),
the key itself when it is absent from the table. -/
def sendKeyArg (key : String) : String :=
  (CHAR_TO_KEY.lookup key).getD key

/-- The monitor command issued by Machine.send_key (line 571). -/
def sendKeyCommand (key : String) : String :=
  "sendkey " ++ sendKeyArg key

/-- Logger.sanitise (lines 148 to 149): keep exactly the characters whose
Unicode general category does not begin with C.  The category table lives in
the Python unicodedata module, outside this repository, so it is abstracted
as the predicate catC, true on exactly the code points whose category begins
with C. -/
def sanitise (catC : Char → Bool) (message : String) : String :=
  String.mk (message.data.filter (fun ch => ! catC ch))

/-- retry (lines 119 to 130).  The predicate is indexed by the number of
calls already made and by the last flag it receives.  The loop body runs
fuel more times with last = false before the final call with last = true.
The result is the pair of: whether retry returns normally (false means it
raises the action timed out exception), and the list of last flags passed
to the successive calls, so that its length is the number of invocations. -/
def retryAux (f : Nat → Bool → Bool) : Nat → Nat → Bool × List Bool
  | i, 0 => (f i true, [true])
  | i, fuel + 1 =>
    if f i false then (true, [false])
    else
      let r := retryAux f (i + 1) fuel
      (r.1, false :: r.2)

/-- retry runs the range(900) loop and then one last call (lines 124, 129). -/
def retry (f : Nat → Bool → Bool) : Bool × List Bool :=
  retryAux f 0 900

/-- The QEMU monitor prompt (line 295). -/
def promptL : List Char := "(qemu) ".data

/-- Machine.wait_for_monitor_prompt (lines 291 to 296).  Each loop iteration
overwrites answer with the next 1024-byte recv chunk and returns it when it
ends with the prompt; earlier chunks are discarded, not accumulated.  The
argument is the list of chunks the monitor stream yields; none models a
call that never returns. -/
def wait_for_monitor_prompt : List (List Char) → Option (List Char)
  | [] => none
  | c :: cs =>
    if promptL.isSuffixOf c then some c else wait_for_monitor_prompt cs

/-- Python regex class backslash-s, restricted to the ASCII range: space,
tab, newline, carriage return, vertical tab, form feed.  The rare non-ASCII
Unicode whitespace accepted by Python is irrelevant to the framed shell
stream and not modelled. -/
def isWsC (c : Char) : Bool :=
  c == ' ' || c == '\t' || c == '\n' || c == '\r' ||
    c == Char.ofNat 11 || c == Char.ofNat 12

/-- Value of a decimal digit string, as the int() conversion on the second
capture group computes it (line 385). -/
def digitsVal (ds : List Char) : Nat :=
  ds.foldl (fun a c => 10 * a + (c.toNat - 48)) 0

/-- One attempt of the status pattern of Machine.execute (line 378) at a
fixed split point: the remainder of the chunk must start with the literal
sentinel, then at least one whitespace character (greedy), then at least
one digit (greedy, group 2).  Characters after the digits are discarded
because the pattern has no end anchor.  Returns int(group 2). -/
def matchAt (s : List Char) : Option Nat :=
  if s.take 5 = "|!EOF".data then
    if (s.drop 5).takeWhile isWsC ≠ [] ∧
        (((s.drop 5).dropWhile isWsC).takeWhile Char.isDigit) ≠ [] then
      some (digitsVal (((s.drop 5).dropWhile isWsC).takeWhile Char.isDigit))
    else none
  else none

/-- re.match of the status pattern on one chunk (line 382).  Group 1 is a
greedy dot-star that cannot cross a newline, so the match succeeds at the
rightmost split point within the first line of the chunk at which the rest
of the pattern matches; the value is the pair (group 1, int(group 2)). -/
def rmatch : List Char → Option (List Char × Nat)
  | [] => none
  | c :: cs =>
    if c = '\n' then (matchAt (c :: cs)).map (fun v => (([] : List Char), v))
    else
      match rmatch cs with
      | some (pre, v) => some (c :: pre, v)
      | none => (matchAt (c :: cs)).map (fun v => (([] : List Char), v))

/-- The recv loop of Machine.execute (lines 380 to 387): accumulate chunks
until one matches the status pattern, then append group 1 to the output and
return the status.  none models blocking forever on a stream whose chunks
never match. -/
def executeLoop : List (List Char) → List Char → Option (Nat × List Char)
  | [], _ => none
  | c :: rest, acc =>
    match rmatch c with
    | some (pre, v) => some (v, acc ++ pre)
    | none => executeLoop rest (acc ++ c)

/-- Machine.execute (lines 371 to 387) on the list of chunks the shell
stream yields after the wrapped command was sent. -/
def execute (chunks : List (List Char)) : Option (Nat × List Char) :=
  executeLoop chunks []

/-- The message of the exception raised by Machine.succeed (line 398). -/
def succeedMsg (c : String) (st : Nat) : String :=
  "command `" ++ c ++ "` failed (exit code " ++ Nat.repr st ++ ")"

/-- The message of the exception raised by Machine.fail (line 410). -/
def failMsg (c : String) : String :=
  "command `" ++ c ++ "` unexpectedly succeeded"

/-- Machine.succeed (lines 389 to 401), with the underlying Machine.execute
abstracted as the map ex from a command to its (status, output) pair.
Commands run in order; the first non-zero status raises; otherwise the
outputs are concatenated. -/
def succeedRun (ex : String → Nat × String) : List String → Except String String
  | [] => Except.ok ""
  | c :: cs =>
    if (ex c).1 ≠ 0 then Except.error (succeedMsg c (ex c).1)
    else
      match succeedRun ex cs with
      | Except.ok out => Except.ok ((ex c).2 ++ out)
      | Except.error e => Except.error e

/-- Machine.fail (lines 403 to 411): commands run in order; the first zero
status raises; when every command exits non-zero it returns cleanly. -/
def failRun (ex : String → Nat × String) : List String → Except String Unit
  | [] => Except.ok ()
  | c :: cs =>
    if (ex c).1 = 0 then Except.error (failMsg c)
    else failRun ex cs

/-- subtest (lines 769 to 783) acting on the counter pair
(nr_tests, nr_succeeded): nr_tests is incremented on entry, nr_succeeded
after the body completes without raising; an exception raised by the body
is logged and swallowed, so the second component of the result, telling
whether an exception propagates out of the scope, is always false.
bodyRaises tells whether the body raises. -/
def subtestRun (counters : Nat × Nat) (bodyRaises : Bool) : (Nat × Nat) × Bool :=
  ((counters.1 + 1, if bodyRaises then counters.2 else counters.2 + 1), false)

/-- A sequence of subtest scopes run from given counter values. -/
def runSubtestsFrom (st : Nat × Nat) (outcomes : List Bool) : Nat × Nat :=
  outcomes.foldl (fun c b => (subtestRun c b).1) st

/-- A whole test script made of subtest scopes, starting from the zero
counters set up at line 801; the flag records whether any exception escaped
a scope into run_tests. -/
def runScriptE (outcomes : List Bool) : (Nat × Nat) × Bool :=
  outcomes.foldl
    (fun acc b => ((subtestRun acc.1 b).1, acc.2 || (subtestRun acc.1 b).2))
    ((0, 0), false)

/-- The summary line of run_tests (line 766), first nr_succeeded then
nr_tests. -/
def summary (nrSucceeded nrTests : Nat) : String :=
  Nat.repr nrSucceeded ++ " out of " ++ Nat.repr nrTests ++ " tests succeeded"

/-- The exit code of the driver: 1 when the exec of the test script raises
(line 755), 0 on normal completion. -/
def scriptExitCode (outcomes : List Bool) : Nat :=
  if (runScriptE outcomes).2 then 1 else 0

/-- The QEMU_OPTS string composed by Machine.start (lines 593 to 607):
a space join of the seven pieces (the first empty when reboot is allowed),
then a space and the pre-existing QEMU_OPTS value from the environment. -/
def composeQemuOpts (allowReboot : Bool) (monitorPath shellPath : String)
    (displaySet : Bool) (envQemuOpts : String) : String :=
  String.intercalate " "
    [ (if allowReboot then "" else "-no-reboot"),
      "-monitor unix:" ++ monitorPath,
      "-chardev socket,id=shell,path=" ++ shellPath,
      "-device virtio-serial",
      "-device virtconsole,chardev=shell",
      "-device virtio-rng-pci",
      (if displaySet then "-serial stdio" else "-nographic") ]
    ++ " " ++ envQemuOpts

/-- The child environment built by Machine.start (lines 609 to 614): a dict
holding the three composed values QEMU_OPTS, SHARED_DIR and USE_TMPDIR,
which is then updated with dict(os.environ), so a variable already present
in os.environ wins over the composed value of the same name. -/
def startChildEnv (osEnv : String → Option String) (qemuOpts sharedDir : String)
    (k : String) : Option String :=
  match osEnv k with
  | some v => some v
  | none =>
    if k = "QEMU_OPTS" then some qemuOpts
    else if k = "SHARED_DIR" then some sharedDir
    else if k = "USE_TMPDIR" then some "1"
    else none

/-- One attempt of re.search for the pattern run-(.+)-vm with end anchor
(line 205) at a fixed position: the remainder must be run-, then a
nonempty capture without newline, then -vm reaching the end of the string.
Group 1 is greedy but the end anchor leaves a single possibility at a given
position.  The Python variant of the end anchor that also matches just
before a final newline is not modelled: start commands are single lines. -/
def matchRunVmAt (s : List Char) : Option (List Char) :=
  if "run-".data <+: s then
    if (s.drop 4).length ≥ 4 ∧
        (s.drop 4).drop ((s.drop 4).length - 3) = "-vm".data ∧
        ('\n') ∉ (s.drop 4).take ((s.drop 4).length - 3) then
      some ((s.drop 4).take ((s.drop 4).length - 3))
    else none
  else none

/-- re.search tries successive start positions from the left (line 205). -/
def searchRunVm : List Char → Option (List Char)
  | [] => none
  | c :: cs =>
    match matchRunVmAt (c :: cs) with
    | some g => some g
    | none => searchRunVm cs

/-- Machine name derivation in the Machine constructor (lines 202 to 207):
the capture of run-(.+)-vm against the start command when the regex
matches, the literal machine otherwise. -/
def machineName (cmd : List Char) : List Char :=
  match searchRunVm cmd with
  | some g => g
  | none => "machine".data

/- Helper lemmas. -/

theorem lookup_eq_none_of_forall {k : String} :
    ∀ {l : List (String × String)}, (∀ p ∈ l, p.1 ≠ k) → l.lookup k = none := by
  intro l
  induction l with
  | nil => intro _; rfl
  | cons a t ih =>
    intro h
    have ha : a.1 ≠ k := h a (List.mem_cons_self a t)
    have hb : (k == a.1) = false := beq_eq_false_iff_ne.mpr (Ne.symm ha)
    simp only [List.lookup, hb]
    exact ih (fun p hp => h p (List.mem_cons_of_mem _ hp))

theorem runSubtestsFrom_le :
    ∀ (outcomes : List Bool) (st : Nat × Nat), st.2 ≤ st.1 →
      (runSubtestsFrom st outcomes).2 ≤ (runSubtestsFrom st outcomes).1 := by
  intro outcomes
  induction outcomes with
  | nil => intro st h; simpa [runSubtestsFrom] using h
  | cons b t ih =>
    intro st h
    have hstep : (subtestRun st b).1.2 ≤ (subtestRun st b).1.1 := by
      cases b <;> simp [subtestRun] <;> omega
    have hfold : runSubtestsFrom st (b :: t) = runSubtestsFrom (subtestRun st b).1 t := rfl
    rw [hfold]
    exact ih _ hstep

theorem succeedRun_all_zero (ex : String → Nat × String) :
    ∀ cmds : List String, (∀ c ∈ cmds, (ex c).1 = 0) →
      succeedRun ex cmds = Except.ok ((cmds.map (fun c => (ex c).2)).foldr (· ++ ·) "") := by
  intro cmds
  induction cmds with
  | nil => intro _; rfl
  | cons c cs ih =>
    intro h
    have hc : (ex c).1 = 0 := h c (List.mem_cons_self c cs)
    have hrest := ih (fun b hb => h b (List.mem_cons_of_mem _ hb))
    simp [succeedRun, hc, hrest]

theorem succeedRun_first_nonzero (ex : String → Nat × String) :
    ∀ (pre : List String) (c : String) (post : List String),
      (∀ b ∈ pre, (ex b).1 = 0) → (ex c).1 ≠ 0 →
      succeedRun ex (pre ++ c :: post) = Except.error (succeedMsg c (ex c).1) := by
  intro pre
  induction pre with
  | nil =>
    intro c post _ hc
    simp [succeedRun, hc]
  | cons b pre ih =>
    intro c post h hc
    have hb : (ex b).1 = 0 := h b (List.mem_cons_self b pre)
    have hrest := ih c post (fun x hx => h x (List.mem_cons_of_mem _ hx)) hc
    simp [succeedRun, hb, hrest]

theorem failRun_all_nonzero (ex : String → Nat × String) :
    ∀ cmds : List String, (∀ c ∈ cmds, (ex c).1 ≠ 0) →
      failRun ex cmds = Except.ok () := by
  intro cmds
  induction cmds with
  | nil => intro _; rfl
  | cons c cs ih =>
    intro h
    have hc : (ex c).1 ≠ 0 := h c (List.mem_cons_self c cs)
    have hrest := ih (fun b hb => h b (List.mem_cons_of_mem _ hb))
    simp [failRun, hc, hrest]

theorem failRun_first_zero (ex : String → Nat × String) :
    ∀ (pre : List String) (c : String) (post : List String),
      (∀ b ∈ pre, (ex b).1 ≠ 0) → (ex c).1 = 0 →
      failRun ex (pre ++ c :: post) = Except.error (failMsg c) := by
  intro pre
  induction pre with
  | nil =>
    intro c post _ hc
    simp [failRun, hc]
  | cons b pre ih =>
    intro c post h hc
    have hb : (ex b).1 ≠ 0 := h b (List.mem_cons_self b pre)
    have hrest := ih c post (fun x hx => h x (List.mem_cons_of_mem _ hx)) hc
    simp [failRun, hb, hrest]

theorem retryAux_length (f : Nat → Bool → Bool) :
    ∀ (fuel i : Nat), (retryAux f i fuel).2.length ≤ fuel + 1 := by
  intro fuel
  induction fuel with
  | zero => intro i; simp [retryAux]
  | succ n ih =>
    intro i
    by_cases h : f i false = true
    · simp [retryAux, h]
    · have hn := ih (i + 1)
      simp only [retryAux, h]
      simp only [Bool.false_eq_true, if_false, List.length_cons]
      omega

theorem retryAux_allFalse (f : Nat → Bool → Bool) (hf : ∀ j, f j false = false) :
    ∀ (fuel i : Nat),
      retryAux f i fuel = (f (i + fuel) true, List.replicate fuel false ++ [true]) := by
  intro fuel
  induction fuel with
  | zero => intro i; simp [retryAux]
  | succ n ih =>
    intro i
    have hi : i + 1 + n = i + (n + 1) := by omega
    simp only [retryAux, hf i, Bool.false_eq_true, if_false, ih (i + 1), hi,
      List.replicate_succ, List.cons_append]

theorem retryAux_firstTrue (f : Nat → Bool → Bool) :
    ∀ (fuel i k : Nat), k < fuel → f (i + k) false = true →
      (∀ t, t < k → f (i + t) false = false) →
      retryAux f i fuel = (true, List.replicate (k + 1) false) := by
  intro fuel
  induction fuel with
  | zero => intro i k hk; exact absurd hk (Nat.not_lt_zero k)
  | succ n ih =>
    intro i k hk htrue hfalse
    cases k with
    | zero =>
      have h0 : f i false = true := by simpa using htrue
      simp [retryAux, h0, List.replicate]
    | succ m =>
      have h0 : f i false = false := by simpa using hfalse 0 (Nat.succ_pos m)
      have hrec := ih (i + 1) m (by omega)
        (by rw [show i + 1 + m = i + (m + 1) by omega]; exact htrue)
        (fun t ht => by
          rw [show i + 1 + t = i + (t + 1) by omega]
          exact hfalse (t + 1) (by omega))
      simp only [retryAux, h0, Bool.false_eq_true, if_false, hrec,
        List.replicate_succ]

theorem matchAt_some_starts {s : List Char} {v : Nat} (h : matchAt s = some v) :
    "|!EOF".data <+: s := by
  by_cases h5 : s.take 5 = "|!EOF".data
  · exact ⟨s.drop 5, by rw [← h5]; exact List.take_append_drop 5 s⟩
  · simp [matchAt, h5] at h

theorem rmatch_has_sentinel :
    ∀ {s : List Char} {r : List Char × Nat}, rmatch s = some r → "|!EOF".data <:+: s := by
  intro s
  induction s with
  | nil => intro r h; simp [rmatch] at h
  | cons c cs ih =>
    intro r h
    by_cases hc : c = '\n'
    · rw [rmatch, if_pos hc] at h
      cases hm : matchAt (c :: cs) with
      | none => rw [hm] at h; simp at h
      | some v => exact (matchAt_some_starts hm).isInfix
    · rw [rmatch, if_neg hc] at h
      cases hr : rmatch cs with
      | some pv =>
        obtain ⟨p, q, hpq⟩ := ih hr
        exact ⟨c :: p, q, by rw [← hpq]; rfl⟩
      | none =>
        rw [hr] at h
        cases hm : matchAt (c :: cs) with
        | none => rw [hm] at h; simp at h
        | some v => exact (matchAt_some_starts hm).isInfix

theorem rmatch_eq_none {s : List Char} (h : ¬ "|!EOF".data <:+: s) :
    rmatch s = none := by
  cases hr : rmatch s with
  | none => rfl
  | some r => exact absurd (rmatch_has_sentinel hr) h

theorem infix_flatten_of_mem :
    ∀ {l : List (List Char)} {c : List Char}, c ∈ l → c <:+: l.flatten := by
  intro l
  induction l with
  | nil => intro c h; exact absurd h (List.not_mem_nil c)
  | cons a t ih =>
    intro c h
    rcases List.mem_cons.mp h with rfl | h
    · exact ⟨[], t.flatten, by simp [List.flatten_cons]⟩
    · exact (ih h).trans ⟨a, [], by simp [List.flatten_cons]⟩

theorem digit_not_wsC {c : Char} (h : c.isDigit = true) : isWsC c = false := by
  cases hw : isWsC c with
  | false => rfl
  | true =>
    exfalso
    have hd := hw
    simp only [isWsC, Bool.or_eq_true, beq_iff_eq] at hd
    rcases hd with ((((rfl | rfl) | rfl) | rfl) | rfl) | rfl <;>
      exact absurd h (by decide)

theorem digit_ne_bar {c : Char} (h : c.isDigit = true) : c ≠ '|' := by
  rintro rfl; exact absurd h (by decide)

theorem digit_ne_nl {c : Char} (h : c.isDigit = true) : c ≠ '\n' := by
  rintro rfl; exact absurd h (by decide)

theorem takeWhile_append_of_all {p : Char → Bool} :
    ∀ (d l : List Char), (∀ c ∈ d, p c = true) →
      (d ++ l).takeWhile p = d ++ l.takeWhile p := by
  intro d
  induction d with
  | nil => intro l _; rfl
  | cons a t ih =>
    intro l h
    have ha : p a = true := h a (List.mem_cons_self a t)
    simp only [List.cons_append, List.takeWhile_cons, ha, if_true]
    rw [ih l (fun c hc => h c (List.mem_cons_of_mem _ hc))]

theorem sentinel_rmatch {d : List Char} (hne : d ≠ [])
    (hd : ∀ c ∈ d, c.isDigit = true) :
    rmatch ("|!EOF ".data ++ d ++ ['\n']) = some ([], digitsVal d) := by
  obtain ⟨c0, d0, rfl⟩ := List.exists_cons_of_ne_nil hne
  have hc0 : c0.isDigit = true := hd c0 (List.mem_cons_self c0 d0)
  have hform : "|!EOF ".data ++ (c0 :: d0) ++ ['\n'] =
      '|' :: ("!EOF ".data ++ (c0 :: d0) ++ ['\n']) := rfl
  rw [hform, rmatch, if_neg (by decide : ¬ ('|') = '\n')]
  have hnone : rmatch ("!EOF ".data ++ (c0 :: d0) ++ ['\n']) = none := by
    apply rmatch_eq_none
    intro hinf
    have hbar : ('|') ∈ "!EOF ".data ++ (c0 :: d0) ++ ['\n'] :=
      hinf.subset (by decide : ('|') ∈ "|!EOF".data)
    simp only [List.mem_append, List.mem_cons] at hbar
    rcases hbar with (h1 | h2) | h3
    · exact absurd h1 (by decide)
    · rcases h2 with h2 | h2
      · rw [← h2] at hc0; exact absurd hc0 (by decide)
      · exact absurd (hd _ (List.mem_cons_of_mem c0 h2)) (by decide)
    · rcases h3 with h3 | h3
      · exact absurd h3 (by decide)
      · exact absurd h3 (List.not_mem_nil _)
  rw [hnone]
  show (matchAt ('|' :: ("!EOF ".data ++ (c0 :: d0) ++ ['\n']))).map
      (fun v => (([] : List Char), v)) = some ([], digitsVal (c0 :: d0))
  have hmatch : matchAt ('|' :: ("!EOF ".data ++ (c0 :: d0) ++ ['\n'])) =
      some (digitsVal (c0 :: d0)) := by
    have htake : ('|' :: ("!EOF ".data ++ (c0 :: d0) ++ ['\n'])).take 5
        = "|!EOF".data := rfl
    have hdrop : ('|' :: ("!EOF ".data ++ (c0 :: d0) ++ ['\n'])).drop 5
        = ' ' :: ((c0 :: d0) ++ ['\n']) := rfl
    rw [matchAt, if_pos htake, hdrop]
    have hws : isWsC c0 = false := digit_not_wsC hc0
    have hnws : ¬ (isWsC c0 = true) := by rw [hws]; exact Bool.false_ne_true
    have htw : (' ' :: ((c0 :: d0) ++ ['\n'])).takeWhile isWsC = [' '] := by
      rw [List.takeWhile_cons, if_pos (show isWsC ' ' = true by decide),
        List.cons_append, List.takeWhile_cons, if_neg hnws]
    have hdw : (' ' :: ((c0 :: d0) ++ ['\n'])).dropWhile isWsC
        = (c0 :: d0) ++ ['\n'] := by
      rw [List.dropWhile_cons, if_pos (show isWsC ' ' = true by decide),
        List.cons_append, List.dropWhile_cons, if_neg hnws]
    have hdig : (((c0 :: d0) ++ ['\n']).takeWhile Char.isDigit) = c0 :: d0 := by
      rw [takeWhile_append_of_all (c0 :: d0) ['\n'] hd,
        show List.takeWhile Char.isDigit ['\n'] = [] from by decide,
        List.append_nil]
    rw [htw, hdw, hdig]
    simp
  rw [hmatch]
  rfl

theorem executeLoop_append {sent : List Char} {v : Nat}
    (hs : rmatch sent = some ([], v)) :
    ∀ (chunks : List (List Char)) (acc : List Char),
      (∀ c ∈ chunks, rmatch c = none) →
      executeLoop (chunks ++ [sent]) acc = some (v, acc ++ chunks.flatten) := by
  intro chunks
  induction chunks with
  | nil => intro acc _; simp [executeLoop, hs]
  | cons c cs ih =>
    intro acc h
    have hc : rmatch c = none := h c (List.mem_cons_self c cs)
    simp only [List.cons_append, executeLoop, hc]
    show executeLoop (cs ++ [sent]) (acc ++ c) = _
    rw [ih (acc ++ c) (fun x hx => h x (List.mem_cons_of_mem _ hx))]
    simp [List.flatten_cons, List.append_assoc]

theorem matchRunVmAt_sound {s g : List Char} (h : matchRunVmAt s = some g) :
    s = "run-".data ++ g ++ "-vm".data ∧ g ≠ [] ∧ ('\n') ∉ g := by
  by_cases hp : "run-".data <+: s
  · rw [matchRunVmAt, if_pos hp] at h
    by_cases hcond : (s.drop 4).length ≥ 4 ∧
        (s.drop 4).drop ((s.drop 4).length - 3) = "-vm".data ∧
        ('\n') ∉ (s.drop 4).take ((s.drop 4).length - 3)
    · rw [if_pos hcond] at h
      obtain ⟨hlen, hdropvm, hnl⟩ := hcond
      have hg : (s.drop 4).take ((s.drop 4).length - 3) = g := Option.some.inj h
      obtain ⟨t, ht⟩ := hp
      have hrt : s.drop 4 = t := by
        rw [← ht]; exact List.drop_left "run-".data t
      refine ⟨?_, ?_, ?_⟩
      · rw [← ht, List.append_assoc]
        congr 1
        rw [← hg, hrt, ← hdropvm, hrt]
        exact (List.take_append_drop (t.length - 3) t).symm
      · intro hgnil
        rw [hgnil] at hg
        have hlng := congrArg List.length hg
        simp only [List.length_take, List.length_nil] at hlng
        rcases Nat.min_eq_zero_iff.mp hlng with h0 | h0 <;> omega
      · rw [← hg]; exact hnl
    · rw [if_neg hcond] at h; simp at h
  · rw [matchRunVmAt, if_neg hp] at h; simp at h

theorem searchRunVm_sound :
    ∀ {cmd g : List Char}, searchRunVm cmd = some g →
      ∃ pre, cmd = pre ++ "run-".data ++ g ++ "-vm".data ∧ g ≠ [] ∧ ('\n') ∉ g := by
  intro cmd
  induction cmd with
  | nil => intro g h; simp [searchRunVm] at h
  | cons c cs ih =>
    intro g h
    cases hm : matchRunVmAt (c :: cs) with
    | some g0 =>
      simp only [searchRunVm, hm] at h
      obtain rfl : g0 = g := Option.some.inj h
      obtain ⟨hs, hne, hnl⟩ := matchRunVmAt_sound hm
      exact ⟨[], by simpa using hs, hne, hnl⟩
    | none =>
      simp only [searchRunVm, hm] at h
      obtain ⟨pre, hpre, hne, hnl⟩ := ih h
      refine ⟨c :: pre, ?_, hne, hnl⟩
      rw [hpre]; simp

theorem searchRunVm_complete :
    ∀ (pre g : List Char), g ≠ [] → ('\n') ∉ g →
      (searchRunVm (pre ++ "run-".data ++ g ++ "-vm".data)).isSome = true := by
  intro pre
  induction pre with
  | nil =>
    intro g hne hnl
    have hm : matchRunVmAt ("run-".data ++ g ++ "-vm".data) = some g := by
      have hp : "run-".data <+: "run-".data ++ g ++ "-vm".data :=
        ⟨g ++ "-vm".data, (List.append_assoc _ _ _).symm⟩
      have hdrop4 : ("run-".data ++ g ++ "-vm".data).drop 4 = g ++ "-vm".data := by
        rw [List.append_assoc]
        exact List.drop_left "run-".data (g ++ "-vm".data)
      have hlen : (g ++ "-vm".data).length = g.length + 3 := by simp
      have hdropend : (g ++ "-vm".data).drop ((g ++ "-vm".data).length - 3)
          = "-vm".data := by
        rw [hlen, show g.length + 3 - 3 = g.length from by omega]
        exact List.drop_left g "-vm".data
      have htakeg : (g ++ "-vm".data).take ((g ++ "-vm".data).length - 3) = g := by
        rw [hlen, show g.length + 3 - 3 = g.length from by omega]
        exact List.take_left g "-vm".data
      have hglen : 0 < g.length := List.length_pos.mpr hne
      rw [matchRunVmAt, if_pos hp, hdrop4, hdropend, htakeg,
        if_pos ⟨by rw [hlen]; omega, rfl, hnl⟩]
    have hsome : searchRunVm ("run-".data ++ g ++ "-vm".data) = some g := by
      show searchRunVm ('r' :: ("un-".data ++ g ++ "-vm".data)) = some g
      simp only [searchRunVm]
      rw [show matchRunVmAt ('r' :: ("un-".data ++ g ++ "-vm".data)) = some g from hm]
    simp only [List.nil_append]
    rw [hsome]
    rfl
  | cons c pre ih =>
    intro g hne hnl
    have hcons : ((c :: pre) ++ "run-".data) ++ g ++ "-vm".data
        = c :: (pre ++ "run-".data ++ g ++ "-vm".data) := by simp
    rw [hcons]
    simp only [searchRunVm]
    cases hm : matchRunVmAt (c :: (pre ++ "run-".data ++ g ++ "-vm".data)) with
    | some g0 => rfl
    | none => exact ih g hne hnl

/-- C1: for every command whose merged output does not contain the literal
sentinel, execute accumulates 4096-byte chunks from the shell stream until a
chunk matches the status regex and returns exactly the pair of the decimal
exit status and the merged output preceding the sentinel; in particular a
shell stream yielding hello, newline, then the sentinel line with status 0
makes execute return (0, hello with newline).  The stream is modelled as
the list of chunks recv yields, with the sentinel line arriving as its own
chunk and the digits d giving the decimal status. -/
theorem execute_framing (outChunks : List (List Char)) (d : List Char)
    (hout : ¬ ("|!EOF".data <:+: outChunks.flatten))
    (hne : d ≠ []) (hd : ∀ c ∈ d, c.isDigit = true) :
    execute (outChunks ++ ["|!EOF ".data ++ d ++ ['\n']])
        = some (digitsVal d, outChunks.flatten) ∧
    execute ["hello\n".data, "|!EOF 0\n".data] = some (0, "hello\n".data) := by
  constructor
  · have hnone : ∀ c ∈ outChunks, rmatch c = none := fun c hc =>
      rmatch_eq_none (fun hinf => hout (hinf.trans (infix_flatten_of_mem hc)))
    have hs := sentinel_rmatch hne hd
    unfold execute
    rw [executeLoop_append hs outChunks [] hnone]
    simp
  · decide

/-- C1 witness: the framing theorem applied to the concrete S4 stream. -/
theorem execute_framing_w :
    execute (["hello\n".data] ++ ["|!EOF ".data ++ ['0'] ++ ['\n']])
        = some (digitsVal ['0'], (["hello\n".data] : List (List Char)).flatten) ∧
    execute ["hello\n".data, "|!EOF 0\n".data] = some (0, "hello\n".data) :=
  execute_framing ["hello\n".data] ['0'] (by decide) (by decide) (by decide)

/-- C2 counterexample: on a monitor stream that delivers ready and the
prompt in two chunks, wait_for_monitor_prompt returns only the last chunk,
not the accumulated text the claim promises. -/
theorem wait_for_monitor_prompt_cex :
    wait_for_monitor_prompt ["ready\n".data, "(qemu) ".data]
      = some ("(qemu) ".data) ∧
    wait_for_monitor_prompt ["ready\n".data, "(qemu) ".data]
      ≠ some ("ready\n".data ++ "(qemu) ".data) := by
  constructor
  · decide
  · decide

theorem wfmp_skip :
    ∀ (pre : List (List Char)) (c : List Char) (rest : List (List Char)),
      (∀ x ∈ pre, promptL.isSuffixOf x = false) →
      promptL.isSuffixOf c = true →
      wait_for_monitor_prompt (pre ++ c :: rest) = some c := by
  intro pre
  induction pre with
  | nil => intro c rest _ hc; simp [wait_for_monitor_prompt, hc]
  | cons x xs ih =>
    intro c rest hpre hc
    have hx : promptL.isSuffixOf x = false := hpre x (List.mem_cons_self x xs)
    simp only [List.cons_append, wait_for_monitor_prompt, hx, Bool.false_eq_true,
      if_false]
    exact ih c rest (fun y hy => hpre y (List.mem_cons_of_mem _ hy)) hc

/-- C2 amended: wait_for_monitor_prompt reads 1024-byte chunks and returns
the most recently read chunk, with earlier chunks discarded, as soon as
that chunk ends with the prompt; on a stream that feeds the whole text
ready newline prompt in a single chunk it returns exactly that text. -/
theorem wait_for_monitor_prompt_latest (pre : List (List Char)) (c : List Char)
    (rest : List (List Char))
    (hpre : ∀ x ∈ pre, promptL.isSuffixOf x = false)
    (hc : promptL.isSuffixOf c = true) :
    wait_for_monitor_prompt (pre ++ c :: rest) = some c ∧
    wait_for_monitor_prompt ["ready\n(qemu) ".data]
      = some ("ready\n(qemu) ".data) := by
  refine ⟨wfmp_skip pre c rest hpre hc, by decide⟩

/-- C2 witness: the amended theorem applied to the single-chunk stream. -/
theorem wait_for_monitor_prompt_latest_w :
    wait_for_monitor_prompt ([] ++ "ready\n(qemu) ".data :: [])
      = some ("ready\n(qemu) ".data) ∧
    wait_for_monitor_prompt ["ready\n(qemu) ".data]
      = some ("ready\n(qemu) ".data) :=
  wait_for_monitor_prompt_latest [] ("ready\n(qemu) ".data) []
    (fun x hx => absurd hx (List.not_mem_nil x)) (by decide)

/-- C3 counterexample: on an always-false predicate, retry makes 901
invocations, 900 of them through the range(900) loop with last false plus
the final one with last true, so the claimed bound of at most 900 total
invocations is wrong. -/
theorem retry_count_cex :
    (retry (fun _ _ => false)).2.length = 901 ∧
    ¬ ((retry (fun _ _ => false)).2.length ≤ 900) := by
  have h : (retry (fun _ _ => false)).2 = List.replicate 900 false ++ [true] := by
    rw [retry, retryAux_allFalse (fun _ _ => false) (fun _ => rfl) 900 0]
  constructor
  · rw [h]; simp
  · rw [h]; simp

/-- C3 amended: retry calls the predicate with last false at most 900 times
with one-second sleeps between attempts, then calls it with last true
exactly once more, so the predicate is invoked at most 901 times in total;
retry returns normally on the first true result and raises the timed-out
failure exactly when the final call, the only one receiving last true,
returns false. -/
theorem retry_amended (f : Nat → Bool → Bool) :
    (retry f).2.length ≤ 901 ∧
    ((∀ j, f j false = false) →
      retry f = (f 900 true, List.replicate 900 false ++ [true])) ∧
    (∀ k, k < 900 → f k false = true → (∀ t, t < k → f t false = false) →
      retry f = (true, List.replicate (k + 1) false)) := by
  refine ⟨?_, ?_, ?_⟩
  · have := retryAux_length f 900 0
    simpa [retry] using this
  · intro hf
    have := retryAux_allFalse f hf 900 0
    simpa [retry] using this
  · intro k hk ht hfalse
    have := retryAux_firstTrue f 900 0 k hk (by simpa using ht)
      (fun t htk => by simpa using hfalse t htk)
    simpa [retry] using this

/-- C3 witness: the amended theorem applied to an always-true predicate,
which makes retry return after a single invocation with last false. -/
theorem retry_amended_w :
    (retry (fun _ _ => true)).2.length ≤ 901 ∧
    retry (fun _ _ => true) = (true, List.replicate 1 false) :=
  ⟨(retry_amended (fun _ _ => true)).1,
   (retry_amended (fun _ _ => true)).2.2 0 (by omega) rfl
     (fun t ht => absurd ht (Nat.not_lt_zero t))⟩

/-- C4: evaluation of the Machine.start environment construction at the
failing input.  When os.environ already holds QEMU_OPTS with value -foo,
the child sees that pre-existing value and not the freshly composed option
string, because environment.update(dict(os.environ)) at line 614 lets
os.environ win; the composed string, which embeds the monitor and shell
socket options and ends with -foo, differs from it. -/
theorem start_env_override_bug :
    startChildEnv (fun k => if k = "QEMU_OPTS" then some "-foo" else none)
        (composeQemuOpts false "/tmp/vm-state-machine/monitor"
          "/tmp/vm-state-machine/shell" false "-foo")
        "/tmp/xchg-shared" "QEMU_OPTS" = some "-foo" ∧
    composeQemuOpts false "/tmp/vm-state-machine/monitor"
        "/tmp/vm-state-machine/shell" false "-foo" ≠ "-foo" := by
  constructor
  · rfl
  · decide

/-- C5: for every entry of the key table, send_key issues sendkey followed
by the mapped token; for every key absent from the table, send_key passes
the key through verbatim. -/
theorem send_key_spec :
    (∀ p ∈ CHAR_TO_KEY, sendKeyCommand p.1 = "sendkey " ++ p.2) ∧
    (∀ k : String, (∀ p ∈ CHAR_TO_KEY, p.1 ≠ k) →
      sendKeyCommand k = "sendkey " ++ k) := by
  constructor
  · decide
  · intro k hk
    unfold sendKeyCommand sendKeyArg
    rw [lookup_eq_none_of_forall hk]
    rfl

/-- C5 witness: the table entry for the uppercase letter A and the
multi-character key name ctrl-alt-f1, which is absent from the table. -/
theorem send_key_spec_w :
    sendKeyCommand "A" = "sendkey " ++ "shift-a" ∧
    sendKeyCommand "ctrl-alt-f1" = "sendkey " ++ "ctrl-alt-f1" :=
  ⟨send_key_spec.1 ("A", "shift-a") (by decide),
   send_key_spec.2 "ctrl-alt-f1" (by decide)⟩

/-- C6: subtest increments nr_tests exactly once on entry, increments
nr_succeeded exactly once when the body completes cleanly and not when it
raises, and never lets the exception propagate; hence the script with one
raising and one passing subtest ends with counters (2, 1), the summary line
1 out of 2 tests succeeded, and exit code 0. -/
theorem subtest_spec :
    (∀ (st : Nat × Nat) (b : Bool),
      (subtestRun st b).1.1 = st.1 + 1 ∧ (subtestRun st b).2 = false) ∧
    (∀ st : Nat × Nat, (subtestRun st false).1.2 = st.2 + 1) ∧
    (∀ st : Nat × Nat, (subtestRun st true).1.2 = st.2) ∧
    runScriptE [true, false] = ((2, 1), false) ∧
    summary (runScriptE [true, false]).1.2 (runScriptE [true, false]).1.1
      = "1 out of 2 tests succeeded" ∧
    scriptExitCode [true, false] = 0 := by
  exact ⟨fun st b => ⟨rfl, rfl⟩, fun st => rfl, fun st => rfl, rfl, rfl, rfl⟩

/-- C7: succeed runs the commands in order, raises on the first non-zero
status and otherwise returns the concatenated outputs; fail runs them in
order, raises on the first zero status and returns cleanly when all are
non-zero; on the S5 stream with sentinel status 2, execute returns status 2,
succeed raises and fail returns cleanly. -/
theorem succeed_fail_spec :
    (∀ (ex : String → Nat × String) (cmds : List String),
      (∀ c ∈ cmds, (ex c).1 = 0) →
      succeedRun ex cmds
        = Except.ok ((cmds.map (fun c => (ex c).2)).foldr (· ++ ·) "")) ∧
    (∀ (ex : String → Nat × String) (pre : List String) (c : String)
        (post : List String),
      (∀ b ∈ pre, (ex b).1 = 0) → (ex c).1 ≠ 0 →
      succeedRun ex (pre ++ c :: post) = Except.error (succeedMsg c (ex c).1)) ∧
    (∀ (ex : String → Nat × String) (cmds : List String),
      (∀ c ∈ cmds, (ex c).1 ≠ 0) → failRun ex cmds = Except.ok ()) ∧
    (∀ (ex : String → Nat × String) (pre : List String) (c : String)
        (post : List String),
      (∀ b ∈ pre, (ex b).1 ≠ 0) → (ex c).1 = 0 →
      failRun ex (pre ++ c :: post) = Except.error (failMsg c)) ∧
    execute ["oops\n".data, "|!EOF 2\n".data] = some (2, "oops\n".data) ∧
    (∀ ex : String → Nat × String, ex "cmd" = (2, "oops\n") →
      succeedRun ex ["cmd"] = Except.error (succeedMsg "cmd" 2) ∧
      failRun ex ["cmd"] = Except.ok ()) := by
  refine ⟨succeedRun_all_zero, succeedRun_first_nonzero, failRun_all_nonzero,
    failRun_first_zero, by decide, ?_⟩
  intro ex hex
  constructor
  · simp [succeedRun, hex]
  · simp [failRun, hex]

/-- C7 witness: the S5 behaviour at the concrete executor whose only result
is status 2 with output oops. -/
theorem succeed_fail_spec_w :
    succeedRun (fun _ => (2, "oops\n")) ["cmd"] = Except.error (succeedMsg "cmd" 2) ∧
    failRun (fun _ => (2, "oops\n")) ["cmd"] = Except.ok () :=
  succeed_fail_spec.2.2.2.2.2 (fun _ => (2, "oops\n")) rfl

/-- C8: sanitise keeps no character on which the category predicate holds,
and sanitise is idempotent. -/
theorem sanitise_spec (catC : Char → Bool) (s : String) :
    (sanitise catC s).data.all (fun c => ! catC c) = true ∧
    sanitise catC (sanitise catC s) = sanitise catC s := by
  constructor
  · rw [List.all_eq_true]
    intro c hc
    have hc2 : c ∈ s.data.filter (fun ch => ! catC ch) := hc
    exact (List.mem_filter.mp hc2).2
  · show String.mk ((s.data.filter (fun ch => ! catC ch)).filter
        (fun ch => ! catC ch)) = String.mk (s.data.filter (fun ch => ! catC ch))
    congr 1
    simp [List.filter_filter, Bool.and_self]

/-- C9: the machine name is the capture of the run dash capture dash vm
end-anchored regex against the start command whenever the regex matches,
with a decomposition of the command witnessing the match, and the literal
machine otherwise; a start command ending in run-foo-vm yields foo. -/
theorem machine_name_spec :
    (∀ cmd : List Char, searchRunVm cmd = none → machineName cmd = "machine".data) ∧
    (∀ cmd g : List Char, searchRunVm cmd = some g →
      machineName cmd = g ∧
      ∃ pre, cmd = pre ++ "run-".data ++ g ++ "-vm".data ∧ g ≠ [] ∧ ('\n') ∉ g) ∧
    (∀ pre g : List Char, g ≠ [] → ('\n') ∉ g →
      (searchRunVm (pre ++ "run-".data ++ g ++ "-vm".data)).isSome = true) ∧
    machineName "/nix/store/abc/bin/run-foo-vm".data = "foo".data := by
  refine ⟨?_, ?_, searchRunVm_complete, by decide⟩
  · intro cmd h; simp [machineName, h]
  · intro cmd g h
    exact ⟨by simp [machineName, h], searchRunVm_sound h⟩

/-- C9 witness: the capture and completeness parts of the name theorem at
the concrete command run-a-vm. -/
theorem machine_name_spec_w :
    machineName "run-a-vm".data = "a".data ∧
    (searchRunVm ([] ++ "run-".data ++ "a".data ++ "-vm".data)).isSome = true :=
  ⟨(machine_name_spec.2.1 ("run-a-vm".data) ("a".data) (by decide)).1,
   machine_name_spec.2.2.1 [] ("a".data) (by decide) (by decide)⟩

/-- C10: across any sequence of subtest scopes the counters satisfy
nr_succeeded at most nr_tests, and a single scope never decreases either
counter. -/
theorem subtest_counters (st : Nat × Nat) (outcomes : List Bool)
    (h : st.2 ≤ st.1) :
    (runSubtestsFrom st outcomes).2 ≤ (runSubtestsFrom st outcomes).1 ∧
    ∀ b, st.1 ≤ (subtestRun st b).1.1 ∧ st.2 ≤ (subtestRun st b).1.2 := by
  refine ⟨runSubtestsFrom_le outcomes st h, ?_⟩
  intro b
  cases b <;> simp [subtestRun]

/-- C10 witness: the invariant at the zero counters and the two-scope
script. -/
theorem subtest_counters_w :
    (runSubtestsFrom (0, 0) [true, false]).2
      ≤ (runSubtestsFrom (0, 0) [true, false]).1 :=
  (subtest_counters (0, 0) [true, false] (by decide)).1
